import Mathlib

/-!
Verification of the DC-motor position-control simulation
(`dc_motor_model.py`, `encoder_sensor.py`, `fuzzy_controller.py`,
`pid_controller.py`, `motor_parameters.py`, `main.py`).

The Python code computes with IEEE doubles; the embedding idealises every
float as an exact rational (`ℚ`).  Randomness (the encoder's Gaussian noise
draw, `np.random.normal`) is modelled by passing the drawn sample in
explicitly; a simulation run takes an oracle `ℕ → ℚ` giving the sample used
at each sensor read.  A Python float division that can raise
`ZeroDivisionError` is modelled with `Except`.
-/

namespace MotorSim

/-! ### Physical and driver constants (`motor_parameters.py`) -/

def J : ℚ := 32 / 10000000
def K_f : ℚ := 35 / 10000000
def K_m : ℚ := 3 / 100
def K_b : ℚ := K_m
def R : ℚ := 4
def L : ℚ := 1 / 1000
def DT : ℚ := 1 / 1000
def VOLTAGE_SCALE : ℚ := 82 / 1000
def MAX_SIMULATION_STEPS : ℕ := 300
def CONVERGENCE_THRESHOLD_POSITION : ℚ := 1 / 2
def CONVERGENCE_THRESHOLD_DELTA : ℚ := 1 / 2
def DELTA_ERROR_MIN : ℚ := -50
def DELTA_ERROR_MAX : ℚ := 50
def POSITION_MIN : ℚ := -180
def POSITION_MAX : ℚ := 180
def ENCODER_PPR : ℤ := 1000
def ENCODER_NOISE_STD : ℚ := 1 / 10

/-- The IEEE-double value of `np.pi`, as an exact rational. -/
def PI_FLOAT : ℚ := 884279719003555 / 281474976710656

/-- `np.deg2rad`: multiply by π/180 (π being the double approximation). -/
def deg2rad (x : ℚ) : ℚ := x * (PI_FLOAT / 180)

/-- `np.rad2deg`: multiply by 180/π. -/
def rad2deg (x : ℚ) : ℚ := x * (180 / PI_FLOAT)

/-- `np.clip(x, lo, hi)`. -/
def npClip (x lo hi : ℚ) : ℚ := min hi (max lo x)

/-! ### Plant model (`dc_motor_model.py`) -/

structure DCMotorModel where
  position_rad : ℚ
  omega : ℚ
  current : ℚ
deriving DecidableEq

/-- `DCMotorModel.__init__`: start at the given position (degrees) with zero
velocity and zero armature current. -/
def DCMotorModel.init (initial_position_deg : ℚ) : DCMotorModel :=
  ⟨deg2rad initial_position_deg, 0, 0⟩

/-- `DCMotorModel.step`: one Euler step.  The current update uses the old
`omega`; the velocity update uses the already-updated `current`; the position
update uses the already-updated `omega`.  Returns the new state together with
the returned position in degrees. -/
def DCMotorModel.step (m : DCMotorModel) (voltage dt : ℚ) : DCMotorModel × ℚ :=
  let di_dt := (voltage - R * m.current - K_b * m.omega) / L
  let current := m.current + di_dt * dt
  let torque := K_m * current
  let friction := K_f * m.omega
  let dw_dt := (torque - friction) / J
  let omega := m.omega + dw_dt * dt
  let position_rad := m.position_rad + omega * dt
  (⟨position_rad, omega, current⟩, rad2deg position_rad)

def DCMotorModel.get_position_deg (m : DCMotorModel) : ℚ := rad2deg m.position_rad

def DCMotorModel.get_velocity_deg_per_sec (m : DCMotorModel) : ℚ := rad2deg m.omega

def DCMotorModel.get_current (m : DCMotorModel) : ℚ := m.current

/-! ### Encoder sensor (`encoder_sensor.py`) -/

/-- Python's builtin `round`: round half to even. -/
def pyRound (x : ℚ) : ℤ :=
  let f := ⌊x⌋
  let r := x - f
  if r < 1 / 2 then f
  else if 1 / 2 < r then f + 1
  else if Even f then f else f + 1

structure RotaryEncoder where
  ppr : ℤ
  noise_std : ℚ
  degrees_per_count : ℚ
  count : ℤ
  previous_position_deg : ℚ
deriving DecidableEq

/-- `RotaryEncoder.__init__`.  The constructor performs no validation; the
only failure is the `ZeroDivisionError` raised by `360.0 / 0` when
`pulses_per_revolution = 0`. -/
def RotaryEncoder.make (ppr : ℤ) (noise_std : ℚ) : Except String RotaryEncoder :=
  if ppr = 0 then .error "ZeroDivisionError"
  else .ok ⟨ppr, noise_std, 360 / (ppr : ℚ), 0, 0⟩

/-- `RotaryEncoder.read_position`.  `noise` is the Gaussian sample that
`np.random.normal(0, noise_std)` would draw; it is added only when
`noise_std > 0`, exactly as in the source. -/
def RotaryEncoder.read_position (e : RotaryEncoder) (actual_position_deg noise : ℚ) :
    RotaryEncoder × ℚ :=
  let counts := pyRound (actual_position_deg / e.degrees_per_count)
  let quantized := (counts : ℚ) * e.degrees_per_count
  let measured := if e.noise_std > 0 then quantized + noise else quantized
  ({ e with count := counts, previous_position_deg := measured }, measured)

def RotaryEncoder.get_count (e : RotaryEncoder) : ℤ := e.count

def RotaryEncoder.get_resolution (e : RotaryEncoder) : ℚ := e.degrees_per_count

/-- `RotaryEncoder.get_velocity`: `(current − previous)/dt` with no guard on
`dt`; the Python float division raises `ZeroDivisionError` at `dt = 0`. -/
def RotaryEncoder.get_velocity (e : RotaryEncoder) (current_position_deg dt : ℚ) :
    Except String ℚ :=
  if dt = 0 then .error "ZeroDivisionError"
  else .ok ((current_position_deg - e.previous_position_deg) / dt)

def RotaryEncoder.reset (e : RotaryEncoder) : RotaryEncoder :=
  { e with count := 0, previous_position_deg := 0 }

/-! ### Fuzzy controller (`fuzzy_controller.py`)

The membership shapes, the 3×3 rule base and the integral trim are read off
the source.  The inference engine itself lives in the external `skfuzzy`
library, so it is *modelled from the spec*: fuzzify both inputs (clamping an
out-of-universe input to the universe bound), take `min` as rule firing
strength, clip each rule's consequent set at its firing strength, aggregate
with `max`, and defuzzify by centroid (weighted average) over the sampled
control universe `-100, -99, …, 100`; zero total activation is not an error
(the centroid is then taken to be 0). -/

/-- `skfuzzy.trapmf [a,b,c,d]` as an exact piecewise-linear function
(requires `a ≤ b ≤ c ≤ d`; shoulders `a = b` or `c = d` give a vertical
edge). -/
def trapmf (a b c d x : ℚ) : ℚ :=
  if x < a then 0
  else if x < b then (x - a) / (b - a)
  else if x ≤ c then 1
  else if x < d then (d - x) / (d - c)
  else 0

/-- `skfuzzy.trimf [a,b,c]`: a triangle is a degenerate trapezoid. -/
def trimf (a b c x : ℚ) : ℚ := trapmf a b b c x

def errN (x : ℚ) : ℚ := trapmf (-180) (-180) (-30) (-5) x
def errZ (x : ℚ) : ℚ := trimf (-8) 0 8 x
def errP (x : ℚ) : ℚ := trapmf 5 30 180 180 x

def dErrN (x : ℚ) : ℚ := trapmf (-50) (-50) (-6) (-1) x
def dErrZ (x : ℚ) : ℚ := trimf (-2) 0 2 x
def dErrP (x : ℚ) : ℚ := trapmf 1 6 50 50 x

def ctrlN (x : ℚ) : ℚ := trapmf (-100) (-100) (-35) (-10) x
def ctrlZ (x : ℚ) : ℚ := trimf (-15) 0 15 x
def ctrlP (x : ℚ) : ℚ := trapmf 10 35 100 100 x

/-- Activation of the `N` output set: maximum firing strength of rules 1
(`error N ∧ Δ N`) and 2 (`error N ∧ Δ Z`). -/
def actN (e de : ℚ) : ℚ :=
  max (min (errN e) (dErrN de)) (min (errN e) (dErrZ de))

/-- Activation of the `Z` output set: rules 3, 4, 5, 6, 7. -/
def actZ (e de : ℚ) : ℚ :=
  max (min (errN e) (dErrP de))
    (max (min (errZ e) (dErrN de))
      (max (min (errZ e) (dErrZ de))
        (max (min (errZ e) (dErrP de)) (min (errP e) (dErrN de)))))

/-- Activation of the `P` output set: rules 8 (`error P ∧ Δ Z`) and 9
(`error P ∧ Δ P`). -/
def actP (e de : ℚ) : ℚ :=
  max (min (errP e) (dErrZ de)) (min (errP e) (dErrP de))

/-- Aggregated output membership at a point of the control universe. -/
def aggregate (e de x : ℚ) : ℚ :=
  max (min (actN e de) (ctrlN x))
    (max (min (actZ e de) (ctrlZ x)) (min (actP e de) (ctrlP x)))

/-- The sampled control universe `np.arange(-100, 101, 1)`. -/
def controlUniverse : Finset ℤ := Finset.Icc (-100) 100

/-- Centroid defuzzification over the sampled control universe. -/
def defuzzCentroid (e de : ℚ) : ℚ :=
  (∑ x ∈ controlUniverse, (x : ℚ) * aggregate e de x) /
    (∑ x ∈ controlUniverse, aggregate e de x)

structure FuzzyMotorController where
  integral : ℚ
  ki : ℚ
deriving DecidableEq

/-- `FuzzyMotorController.__init__`: zero integral, `ki = 0.1`. -/
def FuzzyMotorController.init : FuzzyMotorController := ⟨0, 1 / 10⟩

/-- `FuzzyMotorController.compute_control`: accumulate and clamp the
integral, run the fuzzy inference (inputs clamped to their universes, as the
spec prescribes for out-of-universe values), and return the centroid plus
`ki` times the clamped integral.  Returns the updated controller state with
the control signal. -/
def FuzzyMotorController.compute_control (c : FuzzyMotorController)
    (error_val delta_error_val dt : ℚ) : FuzzyMotorController × ℚ :=
  let integral := npClip (c.integral + error_val * dt) (-300) 300
  let e := npClip error_val (-180) 180
  let de := npClip delta_error_val (-50) 50
  let fuzzy_output := defuzzCentroid e de
  ({ c with integral := integral }, fuzzy_output + c.ki * integral)

/-! ### PID controller (`pid_controller.py`)

The numerical algorithm lives in the external `simple-pid` library, so it is
modelled from the spec: `output = Kp·e + Ki·∫e·dt + Kd·de/dt` against an
explicit setpoint, with the output hard-clamped to `[-100, 100]` and `dt`
always supplied explicitly (the spec's wall-clock fallback is excluded). -/

structure PIDMotorController where
  kp : ℚ
  ki : ℚ
  kd : ℚ
  setpoint : ℚ
  integral : ℚ
  prev_error : ℚ
deriving DecidableEq

/-- `PIDMotorController.__init__(kp, ki, kd)`: setpoint 0, no accumulated
state. -/
def PIDMotorController.init (kp ki kd : ℚ) : PIDMotorController :=
  ⟨kp, ki, kd, 0, 0, 0⟩

/-- `PIDMotorController.set_target`. -/
def PIDMotorController.set_target (c : PIDMotorController) (target : ℚ) :
    PIDMotorController :=
  { c with setpoint := target }

/-- Modelled from the spec: `simple_pid.PID.__call__` — standard-form PID
with output hard-clamped to the fixed range `(-100, 100)` set in
`PIDMotorController.__init__`. -/
def PIDMotorController.compute_control (c : PIDMotorController) (measured dt : ℚ) :
    PIDMotorController × ℚ :=
  let error := c.setpoint - measured
  let integral := c.integral + error * dt
  let derivative := (error - c.prev_error) / dt
  let output := npClip (c.kp * error + c.ki * integral + c.kd * derivative) (-100) 100
  ({ c with integral := integral, prev_error := error }, output)

/-! ### Simulation driver (`main.py`) -/

/-- The two ways a run can end: the convergence `break`, or falling out of
the `while step < max_steps` loop. -/
inductive TerminalState where
  | converged
  | stepLimitReached
deriving DecidableEq

/-- The delta-error computed in the fuzzy loop (`main.py` lines 60–63):
clipped to `[DELTA_ERROR_MIN, DELTA_ERROR_MAX]`. -/
def fuzzyStepDelta (target previous_error measured : ℚ) : ℚ :=
  npClip ((target - measured) - previous_error) DELTA_ERROR_MIN DELTA_ERROR_MAX

/-- The delta-error computed in the PID loop (`main.py` lines 160–161):
*not* clipped. -/
def pidStepDelta (target previous_error measured : ℚ) : ℚ :=
  (target - measured) - previous_error

/-- `motor.step(voltage, dt)` iterated over the inner substep loop. -/
def motorSubsteps (voltage dt : ℚ) : ℕ → DCMotorModel → DCMotorModel
  | 0, m => m
  | n + 1, m => motorSubsteps voltage dt n (m.step voltage dt).1

/-- Shared per-step state of a simulation run: plant, sensor, loop
variables, and the nine per-step trace columns accumulated by `main.py`
(appended chronologically). -/
structure SimState (C : Type) where
  motor : DCMotorModel
  encoder : RotaryEncoder
  controller : C
  measured_position : ℚ
  previous_error : ℚ
  step : ℕ
  time_steps : List ℚ
  actual_positions : List ℚ
  measured_positions : List ℚ
  targets : List ℚ
  errors : List ℚ
  control_signals : List ℚ
  voltages : List ℚ
  currents : List ℚ
  velocities : List ℚ
deriving DecidableEq

/-- The common part of both loop bodies following the controller call:
10 plant substeps at the constant voltage, a new sensor reading, and one
appended trace record.  Returns the updated state together with the error
and delta-error this step used for its convergence test. -/
def driverStepRest {C : Type} (target : ℚ) (oracle : ℕ → ℚ)
    (s : SimState C) (controller : C) (error delta_error control_signal : ℚ) :
    SimState C × Bool :=
  let voltage := control_signal * VOLTAGE_SCALE
  let substep_dt := DT / 10
  let motor := motorSubsteps voltage substep_dt 10 s.motor
  let actual_position := motor.get_position_deg
  let velocity := motor.get_velocity_deg_per_sec
  let current := motor.get_current
  let read := s.encoder.read_position actual_position (oracle (s.step + 1))
  let encoder := read.1
  let measured_position := read.2
  let step := s.step + 1
  ({ motor := motor, encoder := encoder, controller := controller,
     measured_position := measured_position, previous_error := error,
     step := step,
     time_steps := s.time_steps ++ [(step : ℚ) * DT],
     actual_positions := s.actual_positions ++ [actual_position],
     measured_positions := s.measured_positions ++ [measured_position],
     targets := s.targets ++ [target],
     errors := s.errors ++ [error],
     control_signals := s.control_signals ++ [control_signal],
     voltages := s.voltages ++ [voltage],
     currents := s.currents ++ [current],
     velocities := s.velocities ++ [velocity] },
   decide (|error| < CONVERGENCE_THRESHOLD_POSITION ∧
     |delta_error| < CONVERGENCE_THRESHOLD_DELTA))

/-- One iteration of the fuzzy `while` loop body (`main.py` lines 59–104).
The returned `Bool` is the convergence test of line 96. -/
def fuzzyLoopBody (target : ℚ) (oracle : ℕ → ℚ)
    (s : SimState FuzzyMotorController) : SimState FuzzyMotorController × Bool :=
  let error := target - s.measured_position
  let delta_error := fuzzyStepDelta target s.previous_error s.measured_position
  let cres := s.controller.compute_control error delta_error DT
  driverStepRest target oracle s cres.1 error delta_error cres.2

/-- One iteration of the PID `while` loop body (`main.py` lines 159–194).
Note the delta-error is *not* clipped here. -/
def pidLoopBody (target : ℚ) (oracle : ℕ → ℚ)
    (s : SimState PIDMotorController) : SimState PIDMotorController × Bool :=
  let error := target - s.measured_position
  let delta_error := pidStepDelta target s.previous_error s.measured_position
  let cres := s.controller.compute_control s.measured_position DT
  driverStepRest target oracle s cres.1 error delta_error cres.2

/-- The `while step < max_steps` loop, with `fuel = max_steps - step`
remaining iterations.  Exhausting the fuel is the `step >= max_steps` exit;
a true convergence test is the `break`. -/
def driverLoop {C : Type} (body : SimState C → SimState C × Bool) :
    ℕ → SimState C → SimState C × TerminalState
  | 0, s => (s, .stepLimitReached)
  | fuel + 1, s =>
    let r := body s
    if r.2 then (r.1, .converged) else driverLoop body fuel r.1

/-- The initialisation common to both simulate functions: fresh plant at the
initial position, fresh encoder (`ENCODER_PPR`, the given noise std), first
sensor reading, initial error, and the initial trace record. -/
def simInit {C : Type} (current_position target_position : ℚ) (controller : C)
    (noise_std : ℚ) (oracle : ℕ → ℚ) : SimState C :=
  let motor := DCMotorModel.init current_position
  let encoder0 : RotaryEncoder := ⟨ENCODER_PPR, noise_std, 360 / (ENCODER_PPR : ℚ), 0, 0⟩
  let read := encoder0.read_position current_position (oracle 0)
  let previous_error := target_position - read.2
  { motor := motor, encoder := read.1, controller := controller,
    measured_position := read.2, previous_error := previous_error, step := 0,
    time_steps := [0], actual_positions := [current_position],
    measured_positions := [read.2], targets := [target_position],
    errors := [previous_error], control_signals := [0],
    voltages := [0], currents := [0], velocities := [0] }

/-- A completed run: the final loop state plus which terminal state ended
it. -/
structure RunResult (C : Type) where
  final : SimState C
  terminal : TerminalState
deriving DecidableEq

/-- A full fuzzy-controller run, with the sensor noise standard deviation
and the sequence of Gaussian noise draws made explicit (the source fixes the
std to `ENCODER_NOISE_STD`). -/
def fuzzyRun (current_position target_position : ℚ) (controller : FuzzyMotorController)
    (noise_std : ℚ) (oracle : ℕ → ℚ) : RunResult FuzzyMotorController :=
  let s := simInit current_position target_position controller noise_std oracle
  let r := driverLoop (fuzzyLoopBody target_position oracle) MAX_SIMULATION_STEPS s
  ⟨r.1, r.2⟩

/-- A full PID-controller run (`controller.set_target` is called before the
loop, as in the source). -/
def pidRun (current_position target_position : ℚ) (controller : PIDMotorController)
    (noise_std : ℚ) (oracle : ℕ → ℚ) : RunResult PIDMotorController :=
  let s := simInit current_position target_position (controller.set_target target_position)
    noise_std oracle
  let r := driverLoop (pidLoopBody target_position oracle) MAX_SIMULATION_STEPS s
  ⟨r.1, r.2⟩

/-- What `simulate_motor_control_fuzzy` / `simulate_motor_control_pid`
actually `return`: six of the nine trace columns, and the step count.  No
terminal state and no voltage/current/velocity column is part of the
return value. -/
structure SimReturn where
  time_steps : List ℚ
  actual_positions : List ℚ
  measured_positions : List ℚ
  targets : List ℚ
  errors : List ℚ
  control_signals : List ℚ
  step : ℕ
deriving DecidableEq

/-- Project a run's final state onto the source's return tuple. -/
def SimState.toReturn {C : Type} (s : SimState C) : SimReturn :=
  ⟨s.time_steps, s.actual_positions, s.measured_positions, s.targets,
    s.errors, s.control_signals, s.step⟩

/-- `simulate_motor_control_fuzzy(current_position, target_position,
controller)`, with the noise draws passed as an oracle. -/
def simulate_motor_control_fuzzy (current_position target_position : ℚ)
    (controller : FuzzyMotorController) (oracle : ℕ → ℚ) : SimReturn :=
  (fuzzyRun current_position target_position controller ENCODER_NOISE_STD oracle).final.toReturn

/-- `simulate_motor_control_pid(current_position, target_position,
controller)`, with the noise draws passed as an oracle. -/
def simulate_motor_control_pid (current_position target_position : ℚ)
    (controller : PIDMotorController) (oracle : ℕ → ℚ) : SimReturn :=
  (pidRun current_position target_position controller ENCODER_NOISE_STD oracle).final.toReturn

/-- The six per-step columns of the return value, as a list of lists. -/
def SimReturn.columns (r : SimReturn) : List (List ℚ) :=
  [r.time_steps, r.actual_positions, r.measured_positions, r.targets,
    r.errors, r.control_signals]

/-- The error recorded by the most recent completed step (the last entry of
the `errors` column). -/
def SimState.lastError {C : Type} (s : SimState C) : ℚ :=
  s.errors.getLast?.getD 0

/-- The error recorded by the step before the most recent one. -/
def SimState.lastPrevError {C : Type} (s : SimState C) : ℚ :=
  s.errors.dropLast.getLast?.getD 0

/-- Loop invariant: every trace column has one record per completed step
plus the initial record, and the last recorded error is the loop's
`previous_error` variable. -/
def TraceOk {C : Type} (s : SimState C) : Prop :=
  s.time_steps.length = s.step + 1 ∧
  s.actual_positions.length = s.step + 1 ∧
  s.measured_positions.length = s.step + 1 ∧
  s.targets.length = s.step + 1 ∧
  s.errors.length = s.step + 1 ∧
  s.control_signals.length = s.step + 1 ∧
  s.voltages.length = s.step + 1 ∧
  s.currents.length = s.step + 1 ∧
  s.velocities.length = s.step + 1 ∧
  s.errors.getLast? = some s.previous_error

/-- The convergence condition of `main.py` line 96, re-read from the final
trace: the last recorded error is below the position threshold and its
clipped difference with the previous recorded error is below the delta
threshold. -/
def ConvergedTrace {C : Type} (s : SimState C) : Prop :=
  |s.lastError| < CONVERGENCE_THRESHOLD_POSITION ∧
  |npClip (s.lastError - s.lastPrevError) DELTA_ERROR_MIN DELTA_ERROR_MAX| <
    CONVERGENCE_THRESHOLD_DELTA

/-! ## Helper lemmas -/

theorem npClip_le (x lo hi : ℚ) : npClip x lo hi ≤ hi := min_le_left _ _

theorem le_npClip (x lo hi : ℚ) (h : lo ≤ hi) : lo ≤ npClip x lo hi :=
  le_min h (le_max_left _ _)

theorem abs_npClip_le (x lo hi : ℚ) (h : 0 ≤ hi) (h' : lo = -hi) :
    |npClip x lo hi| ≤ hi := by
  subst h'
  exact abs_le.mpr ⟨le_npClip x (-hi) hi (by linarith), npClip_le x (-hi) hi⟩

/-! ## C1: plant step ordering -/

/-- Claim C1: one plant step is the semi-implicit Euler update — the new
current is computed from the *previous* angular velocity, the new angular
velocity from the *newly computed* current, the new position from the
*newly computed* velocity, and the returned value is the new position
converted to degrees. -/
theorem plant_step_ordering (m : DCMotorModel) (v dt : ℚ) (hdt : 0 < dt) :
    (m.step v dt).1.current =
      m.current + dt * ((v - R * m.current - K_b * m.omega) / L) ∧
    (m.step v dt).1.omega =
      m.omega + dt * ((K_m * (m.step v dt).1.current - K_f * m.omega) / J) ∧
    (m.step v dt).1.position_rad =
      m.position_rad + (m.step v dt).1.omega * dt ∧
    (m.step v dt).2 = rad2deg (m.step v dt).1.position_rad := by
  refine ⟨?_, ?_, ?_, ?_⟩ <;> simp only [DCMotorModel.step] <;> ring

/-- Witness for C1 at the state `(θ, ω, i) = (1, 2, 3)`, `v = 5`,
`dt = 1`. -/
theorem plant_step_ordering_witness :
    ((⟨1, 2, 3⟩ : DCMotorModel).step 5 1).1.current =
      3 + 1 * ((5 - R * 3 - K_b * 2) / L) ∧
    ((⟨1, 2, 3⟩ : DCMotorModel).step 5 1).1.omega =
      2 + 1 * ((K_m * ((⟨1, 2, 3⟩ : DCMotorModel).step 5 1).1.current - K_f * 2) / J) ∧
    ((⟨1, 2, 3⟩ : DCMotorModel).step 5 1).1.position_rad =
      1 + ((⟨1, 2, 3⟩ : DCMotorModel).step 5 1).1.omega * 1 ∧
    ((⟨1, 2, 3⟩ : DCMotorModel).step 5 1).2 =
      rad2deg ((⟨1, 2, 3⟩ : DCMotorModel).step 5 1).1.position_rad :=
  plant_step_ordering ⟨1, 2, 3⟩ 5 1 (by norm_num)

/-! ## C5: encoder construction -/

/-- Counterexample to claim C5: constructing an encoder with the *negative*
pulses-per-revolution value −5 is not rejected — it succeeds, with the
(nonsensical) resolution 360/(−5) = −72 degrees per count. -/
theorem encoder_negative_ppr_accepted :
    RotaryEncoder.make (-5) 0 = .ok ⟨-5, 0, -72, 0, 0⟩ := by
  with_unfolding_all rfl

/-- Claim C5 as amended: the constructor performs no validation.
`PPR = 0` fails at construction time with the `ZeroDivisionError` raised by
`360.0 / 0`; every nonzero `PPR` — negative values included — is accepted
with resolution `360 / PPR`, and the resolution is never changed by
`read_position` or `reset` afterwards. -/
theorem encoder_construction_validation :
    (∀ ppr : ℤ, ppr ≠ 0 → ∀ noise : ℚ,
      RotaryEncoder.make ppr noise = .ok ⟨ppr, noise, 360 / (ppr : ℚ), 0, 0⟩) ∧
    (∀ noise : ℚ, RotaryEncoder.make 0 noise = .error "ZeroDivisionError") ∧
    (∀ (e : RotaryEncoder) (a n : ℚ),
      (e.read_position a n).1.degrees_per_count = e.degrees_per_count ∧
      (e.read_position a n).1.ppr = e.ppr) ∧
    (∀ e : RotaryEncoder, e.reset.degrees_per_count = e.degrees_per_count) := by
  refine ⟨?_, ?_, ?_, ?_⟩
  · intro ppr h noise
    simp [RotaryEncoder.make, h]
  · intro noise
    simp [RotaryEncoder.make]
  · intro e a n
    exact ⟨rfl, rfl⟩
  · intro e
    rfl

/-- Witness for C5 (amended) at the default `PPR = 1000`. -/
theorem encoder_construction_validation_witness :
    RotaryEncoder.make 1000 (1 / 10) =
      .ok ⟨1000, 1 / 10, 360 / ((1000 : ℤ) : ℚ), 0, 0⟩ :=
  encoder_construction_validation.1 1000 (by norm_num) (1 / 10)

/-! ## C6: quantization -/

/-- Claim C6: with the noise standard deviation at 0, a read returns
`round(p/resolution) · resolution` (Python's round-half-to-even), so two
successive reads of the same position agree; and at `PPR = 1000`
(resolution 0.36°), a true position of 0.17° reads as 0°. -/
theorem quantization_correct :
    (∀ e : RotaryEncoder, e.noise_std = 0 → ∀ a n₁ n₂ : ℚ,
      (e.read_position a n₁).2 =
        (pyRound (a / e.degrees_per_count) : ℚ) * e.degrees_per_count ∧
      ((e.read_position a n₁).1.read_position a n₂).2 = (e.read_position a n₁).2) ∧
    ((⟨1000, 0, 9 / 25, 0, 0⟩ : RotaryEncoder).read_position (17 / 100) 0).2 = 0 := by
  constructor
  · intro e h a n₁ n₂
    constructor
    · simp [RotaryEncoder.read_position, h]
    · simp [RotaryEncoder.read_position, h]
  · with_unfolding_all rfl

/-- Witness for C6 at a concrete noiseless encoder. -/
theorem quantization_correct_witness :
    ((⟨1000, 0, 9 / 25, 0, 0⟩ : RotaryEncoder).read_position (5 / 7) 3).2 =
      (pyRound ((5 / 7) / (9 / 25)) : ℚ) * (9 / 25) ∧
    (((⟨1000, 0, 9 / 25, 0, 0⟩ : RotaryEncoder).read_position (5 / 7) 3).1.read_position
        (5 / 7) 4).2 =
      ((⟨1000, 0, 9 / 25, 0, 0⟩ : RotaryEncoder).read_position (5 / 7) 3).2 :=
  quantization_correct.1 ⟨1000, 0, 9 / 25, 0, 0⟩ rfl (5 / 7) 3 4

/-! ## C7: delta-error clamping -/

/-- Counterexample to claim C7: in the PID loop the delta-error reaching the
convergence test is *not* clamped.  At target 0, previous error −60 and
measured position 0, the PID loop's delta-error is 60, while the claimed
clamped value would be 50. -/
theorem pid_delta_not_clamped :
    pidStepDelta 0 (-60) 0 = 60 ∧
    npClip (pidStepDelta 0 (-60) 0) DELTA_ERROR_MIN DELTA_ERROR_MAX = 50 ∧
    (60 : ℚ) ≠ 50 := by
  refine ⟨?_, ?_, by norm_num⟩ <;>
    norm_num [pidStepDelta, npClip, DELTA_ERROR_MIN, DELTA_ERROR_MAX]

/-- Claim C7 as amended: the fuzzy loop clamps the delta-error to
`[-50, 50]` before the controller call and before the convergence test,
while the PID loop uses the raw delta-error (its controller never consumes
it); the missing clamp cannot change a convergence decision, because
clamping at ±50 preserves `|δ| < 0.5`. -/
theorem delta_error_clamping :
    (∀ t p m : ℚ,
      fuzzyStepDelta t p m =
        npClip (pidStepDelta t p m) DELTA_ERROR_MIN DELTA_ERROR_MAX) ∧
    (∀ d : ℚ,
      |npClip d DELTA_ERROR_MIN DELTA_ERROR_MAX| < CONVERGENCE_THRESHOLD_DELTA ↔
        |d| < CONVERGENCE_THRESHOLD_DELTA) := by
  constructor
  · intro t p m
    rfl
  · intro d
    simp only [npClip, DELTA_ERROR_MIN, DELTA_ERROR_MAX, CONVERGENCE_THRESHOLD_DELTA,
      abs_lt, min_def, max_def]
    split_ifs <;> constructor <;> intro h <;> constructor <;> linarith [h.1, h.2]

/-! ## C2: bounded controller output

The interesting half is the fuzzy strategy: its output is the centroid plus
`ki` times the integral clamped to `[-300, 300]`, i.e. the centroid plus a
term in `[-30, 30]`.  The claim therefore needs the centroid to stay within
`[-70, 70]` — which it does: above 70 the aggregated membership is at most
the `P`-set activation, while on `[35, 70]` it is at least that activation,
and the two weighted blocks cancel in the centroid's favour. -/

theorem trapmf_nonneg (a b c d x : ℚ) : 0 ≤ trapmf a b c d x := by
  unfold trapmf
  split_ifs with h1 h2 h3 h4
  · exact le_rfl
  · have h1' := not_lt.mp h1
    exact div_nonneg (by linarith) (by linarith)
  · exact zero_le_one
  · have h3' := not_le.mp h3
    exact div_nonneg (by linarith) (by linarith)
  · exact le_rfl

theorem trapmf_le_one (a b c d x : ℚ) : trapmf a b c d x ≤ 1 := by
  unfold trapmf
  split_ifs with h1 h2 h3 h4
  · exact zero_le_one
  · have h1' := not_lt.mp h1
    exact (div_le_one (by linarith)).mpr (by linarith)
  · exact le_rfl
  · have h3' := not_le.mp h3
    exact (div_le_one (by linarith)).mpr (by linarith)
  · exact zero_le_one

theorem actN_nonneg (e de : ℚ) : 0 ≤ actN e de :=
  le_max_of_le_left (le_min (trapmf_nonneg _ _ _ _ _) (trapmf_nonneg _ _ _ _ _))

theorem actZ_nonneg (e de : ℚ) : 0 ≤ actZ e de :=
  le_max_of_le_left (le_min (trapmf_nonneg _ _ _ _ _) (trapmf_nonneg _ _ _ _ _))

theorem actP_nonneg (e de : ℚ) : 0 ≤ actP e de :=
  le_max_of_le_left (le_min (trapmf_nonneg _ _ _ _ _) (trapmf_nonneg _ _ _ _ _))

theorem actN_le_one (e de : ℚ) : actN e de ≤ 1 :=
  max_le (le_trans (min_le_left _ _) (trapmf_le_one _ _ _ _ _))
    (le_trans (min_le_left _ _) (trapmf_le_one _ _ _ _ _))

theorem actP_le_one (e de : ℚ) : actP e de ≤ 1 :=
  max_le (le_trans (min_le_left _ _) (trapmf_le_one _ _ _ _ _))
    (le_trans (min_le_left _ _) (trapmf_le_one _ _ _ _ _))

theorem ctrlN_eq_zero {x : ℚ} (h : (-10 : ℚ) ≤ x) : ctrlN x = 0 := by
  unfold ctrlN trapmf
  split_ifs <;> first | rfl | (exfalso; linarith)

theorem ctrlN_eq_one {x : ℚ} (h1 : (-100 : ℚ) ≤ x) (h2 : x ≤ -35) : ctrlN x = 1 := by
  unfold ctrlN trapmf
  split_ifs <;> first | rfl | (exfalso; linarith)

theorem ctrlZ_eq_zero_of_ge {x : ℚ} (h : (15 : ℚ) ≤ x) : ctrlZ x = 0 := by
  unfold ctrlZ trimf trapmf
  split_ifs <;> first | rfl | (exfalso; linarith)

theorem ctrlZ_eq_zero_of_le {x : ℚ} (h : x ≤ (-15 : ℚ)) : ctrlZ x = 0 := by
  unfold ctrlZ trimf trapmf
  split_ifs <;> first | rfl | linarith

theorem ctrlP_eq_zero_of_le {x : ℚ} (h : x ≤ (10 : ℚ)) : ctrlP x = 0 := by
  unfold ctrlP trapmf
  split_ifs <;> first | rfl | linarith

theorem ctrlP_eq_one {x : ℚ} (h1 : (35 : ℚ) ≤ x) (h2 : x ≤ 100) : ctrlP x = 1 := by
  unfold ctrlP trapmf
  split_ifs <;> first | rfl | (exfalso; linarith)

theorem aggregate_nonneg (e de x : ℚ) : 0 ≤ aggregate e de x :=
  le_max_of_le_left (le_min (actN_nonneg e de) (trapmf_nonneg _ _ _ _ _))

theorem aggregate_le_actP (e de : ℚ) {x : ℚ} (h : (16 : ℚ) ≤ x) :
    aggregate e de x ≤ actP e de := by
  unfold aggregate
  rw [ctrlN_eq_zero (by linarith), ctrlZ_eq_zero_of_ge (by linarith),
    min_eq_right (actN_nonneg e de), min_eq_right (actZ_nonneg e de)]
  exact max_le (actP_nonneg e de) (max_le (actP_nonneg e de) (min_le_left _ _))

theorem actP_le_aggregate (e de : ℚ) {x : ℚ} (h1 : (35 : ℚ) ≤ x) (h2 : x ≤ 100) :
    actP e de ≤ aggregate e de x := by
  unfold aggregate
  rw [ctrlP_eq_one h1 h2, min_eq_left (actP_le_one e de)]
  exact le_max_of_le_right (le_max_of_le_right le_rfl)

theorem aggregate_le_actN (e de : ℚ) {x : ℚ} (h : x ≤ (-16 : ℚ)) :
    aggregate e de x ≤ actN e de := by
  unfold aggregate
  rw [ctrlZ_eq_zero_of_le (by linarith), ctrlP_eq_zero_of_le (by linarith),
    min_eq_right (actZ_nonneg e de), min_eq_right (actP_nonneg e de)]
  exact max_le (min_le_left _ _) (by rw [max_self]; exact actN_nonneg e de)

theorem actN_le_aggregate (e de : ℚ) {x : ℚ} (h1 : (-100 : ℚ) ≤ x) (h2 : x ≤ -35) :
    actN e de ≤ aggregate e de x := by
  unfold aggregate
  rw [ctrlN_eq_one h1 h2, min_eq_left (actN_le_one e de)]
  exact le_max_left _ _

theorem controlUniverse_eq : controlUniverse = Finset.Ioc (-101 : ℤ) 100 := by
  unfold controlUniverse
  ext y
  simp only [Finset.mem_Icc, Finset.mem_Ioc]
  omega

theorem ioc_disjoint (a b c : ℤ) : Disjoint (Finset.Ioc a b) (Finset.Ioc b c) := by
  rw [Finset.disjoint_left]
  intro y hy hy'
  rw [Finset.mem_Ioc] at hy hy'
  omega

set_option maxRecDepth 100000 in
theorem sum_shift_34_70 : (∑ x ∈ Finset.Ioc (34 : ℤ) 70, ((x : ℚ) - 70)) = -630 := by
  with_unfolding_all rfl

set_option maxRecDepth 100000 in
theorem sum_shift_70_100 : (∑ x ∈ Finset.Ioc (70 : ℤ) 100, ((x : ℚ) - 70)) = 465 := by
  with_unfolding_all rfl

set_option maxRecDepth 100000 in
theorem sum_shift_m101_m71 :
    (∑ x ∈ Finset.Ioc (-101 : ℤ) (-71), ((x : ℚ) + 70)) = -465 := by
  with_unfolding_all rfl

set_option maxRecDepth 100000 in
theorem sum_shift_m71_m35 :
    (∑ x ∈ Finset.Ioc (-71 : ℤ) (-35), ((x : ℚ) + 70)) = 630 := by
  with_unfolding_all rfl

/-- The moment of the aggregated region about the point 70 is nonpositive:
whatever fires, mass beyond 70 (bounded by the `P` activation) is outweighed
by the guaranteed mass on `[35, 70]`. -/
theorem aggregate_moment_le (e de : ℚ) :
    (∑ x ∈ controlUniverse, ((x : ℚ) - 70) * aggregate e de (x : ℚ)) ≤ 0 := by
  rw [controlUniverse_eq,
    ← Finset.Ioc_union_Ioc_eq_Ioc (by norm_num : (-101 : ℤ) ≤ 34) (by norm_num : (34 : ℤ) ≤ 100),
    Finset.sum_union (ioc_disjoint _ _ _),
    ← Finset.Ioc_union_Ioc_eq_Ioc (by norm_num : (34 : ℤ) ≤ 70) (by norm_num : (70 : ℤ) ≤ 100),
    Finset.sum_union (ioc_disjoint _ _ _)]
  have hpart1 : (∑ x ∈ Finset.Ioc (-101 : ℤ) 34, ((x : ℚ) - 70) * aggregate e de (x : ℚ)) ≤ 0 := by
    apply Finset.sum_nonpos
    intro x hx
    rw [Finset.mem_Ioc] at hx
    have hx' : (x : ℚ) ≤ 34 := by exact_mod_cast hx.2
    exact mul_nonpos_iff.mpr (Or.inr ⟨by linarith, aggregate_nonneg e de _⟩)
  have hpart2 : (∑ x ∈ Finset.Ioc (34 : ℤ) 70, ((x : ℚ) - 70) * aggregate e de (x : ℚ)) ≤
      -630 * actP e de := by
    have := Finset.sum_le_sum (s := Finset.Ioc (34 : ℤ) 70)
      (f := fun x : ℤ => ((x : ℚ) - 70) * aggregate e de (x : ℚ))
      (g := fun x : ℤ => ((x : ℚ) - 70) * actP e de) ?_
    · calc (∑ x ∈ Finset.Ioc (34 : ℤ) 70, ((x : ℚ) - 70) * aggregate e de (x : ℚ)) ≤
          ∑ x ∈ Finset.Ioc (34 : ℤ) 70, ((x : ℚ) - 70) * actP e de := this
        _ = (∑ x ∈ Finset.Ioc (34 : ℤ) 70, ((x : ℚ) - 70)) * actP e de :=
          (Finset.sum_mul _ _ _).symm
        _ = -630 * actP e de := by rw [sum_shift_34_70]
    · intro x hx
      rw [Finset.mem_Ioc] at hx
      have hx1 : (35 : ℚ) ≤ (x : ℚ) := by exact_mod_cast (by omega : (35 : ℤ) ≤ x)
      have hx2 : (x : ℚ) ≤ 70 := by exact_mod_cast hx.2
      exact mul_le_mul_of_nonpos_left
        (actP_le_aggregate e de hx1 (by linarith)) (by linarith)
  have hpart3 : (∑ x ∈ Finset.Ioc (70 : ℤ) 100, ((x : ℚ) - 70) * aggregate e de (x : ℚ)) ≤
      465 * actP e de := by
    have := Finset.sum_le_sum (s := Finset.Ioc (70 : ℤ) 100)
      (f := fun x : ℤ => ((x : ℚ) - 70) * aggregate e de (x : ℚ))
      (g := fun x : ℤ => ((x : ℚ) - 70) * actP e de) ?_
    · calc (∑ x ∈ Finset.Ioc (70 : ℤ) 100, ((x : ℚ) - 70) * aggregate e de (x : ℚ)) ≤
          ∑ x ∈ Finset.Ioc (70 : ℤ) 100, ((x : ℚ) - 70) * actP e de := this
        _ = (∑ x ∈ Finset.Ioc (70 : ℤ) 100, ((x : ℚ) - 70)) * actP e de :=
          (Finset.sum_mul _ _ _).symm
        _ = 465 * actP e de := by rw [sum_shift_70_100]
    · intro x hx
      rw [Finset.mem_Ioc] at hx
      have hx1 : (70 : ℚ) ≤ (x : ℚ) := by exact_mod_cast le_of_lt hx.1
      have hx2 : (x : ℚ) ≤ 100 := by exact_mod_cast hx.2
      exact mul_le_mul_of_nonneg_left
        (aggregate_le_actP e de (by linarith)) (by linarith)
  have hP := actP_nonneg e de
  linarith

/-- Mirror image of `aggregate_moment_le`: the moment about −70 is
nonnegative. -/
theorem aggregate_moment_ge (e de : ℚ) :
    0 ≤ ∑ x ∈ controlUniverse, ((x : ℚ) + 70) * aggregate e de (x : ℚ) := by
  rw [controlUniverse_eq,
    ← Finset.Ioc_union_Ioc_eq_Ioc (by norm_num : (-101 : ℤ) ≤ -71) (by norm_num : (-71 : ℤ) ≤ 100),
    Finset.sum_union (ioc_disjoint _ _ _),
    ← Finset.Ioc_union_Ioc_eq_Ioc (by norm_num : (-71 : ℤ) ≤ -35) (by norm_num : (-35 : ℤ) ≤ 100),
    Finset.sum_union (ioc_disjoint _ _ _)]
  have hpart1 : (-465 : ℚ) * actN e de ≤
      ∑ x ∈ Finset.Ioc (-101 : ℤ) (-71), ((x : ℚ) + 70) * aggregate e de (x : ℚ) := by
    have := Finset.sum_le_sum (s := Finset.Ioc (-101 : ℤ) (-71))
      (f := fun x : ℤ => ((x : ℚ) + 70) * actN e de)
      (g := fun x : ℤ => ((x : ℚ) + 70) * aggregate e de (x : ℚ)) ?_
    · calc (-465 : ℚ) * actN e de
          = (∑ x ∈ Finset.Ioc (-101 : ℤ) (-71), ((x : ℚ) + 70)) * actN e de := by
            rw [sum_shift_m101_m71]
        _ = ∑ x ∈ Finset.Ioc (-101 : ℤ) (-71), ((x : ℚ) + 70) * actN e de :=
          Finset.sum_mul _ _ _
        _ ≤ _ := this
    · intro x hx
      rw [Finset.mem_Ioc] at hx
      have hx2 : (x : ℚ) ≤ -71 := by exact_mod_cast hx.2
      exact mul_le_mul_of_nonpos_left
        (aggregate_le_actN e de (by linarith)) (by linarith)
  have hpart2 : (630 : ℚ) * actN e de ≤
      ∑ x ∈ Finset.Ioc (-71 : ℤ) (-35), ((x : ℚ) + 70) * aggregate e de (x : ℚ) := by
    have := Finset.sum_le_sum (s := Finset.Ioc (-71 : ℤ) (-35))
      (f := fun x : ℤ => ((x : ℚ) + 70) * actN e de)
      (g := fun x : ℤ => ((x : ℚ) + 70) * aggregate e de (x : ℚ)) ?_
    · calc (630 : ℚ) * actN e de
          = (∑ x ∈ Finset.Ioc (-71 : ℤ) (-35), ((x : ℚ) + 70)) * actN e de := by
            rw [sum_shift_m71_m35]
        _ = ∑ x ∈ Finset.Ioc (-71 : ℤ) (-35), ((x : ℚ) + 70) * actN e de :=
          Finset.sum_mul _ _ _
        _ ≤ _ := this
    · intro x hx
      rw [Finset.mem_Ioc] at hx
      have hx1 : (-70 : ℚ) ≤ (x : ℚ) := by exact_mod_cast (by omega : (-70 : ℤ) ≤ x)
      have hx2 : (x : ℚ) ≤ -35 := by exact_mod_cast hx.2
      exact mul_le_mul_of_nonneg_left
        (actN_le_aggregate e de (by linarith) hx2) (by linarith)
  have hpart3 : (0 : ℚ) ≤
      ∑ x ∈ Finset.Ioc (-35 : ℤ) 100, ((x : ℚ) + 70) * aggregate e de (x : ℚ) := by
    apply Finset.sum_nonneg
    intro x hx
    rw [Finset.mem_Ioc] at hx
    have hx1 : (-34 : ℚ) ≤ (x : ℚ) := by exact_mod_cast (by omega : (-34 : ℤ) ≤ x)
    exact mul_nonneg (by linarith) (aggregate_nonneg e de _)
  have hN := actN_nonneg e de
  linarith

/-- The centroid never leaves `[-70, 70]` (a zero-activation aggregate gives
the rational-division convention `S/0 = 0`). -/
theorem defuzzCentroid_abs_le (e de : ℚ) : |defuzzCentroid e de| ≤ 70 := by
  unfold defuzzCentroid
  have hT0 : 0 ≤ ∑ x ∈ controlUniverse, aggregate e de (x : ℚ) :=
    Finset.sum_nonneg fun x _ => aggregate_nonneg e de _
  rcases eq_or_lt_of_le hT0 with h | h
  · rw [← h, div_zero]
    norm_num
  · have hdist : ∀ c : ℚ,
        (∑ x ∈ controlUniverse, ((x : ℚ) + c) * aggregate e de (x : ℚ)) =
          (∑ x ∈ controlUniverse, (x : ℚ) * aggregate e de (x : ℚ)) +
            c * ∑ x ∈ controlUniverse, aggregate e de (x : ℚ) := by
      intro c
      rw [Finset.mul_sum, ← Finset.sum_add_distrib]
      exact Finset.sum_congr rfl fun x _ => by ring
    have hle := aggregate_moment_le e de
    have hge := aggregate_moment_ge e de
    have hle' := hdist (-70)
    have hge' := hdist 70
    rw [abs_le]
    constructor
    · rw [le_div_iff₀ h]
      have : (∑ x ∈ controlUniverse, ((x : ℚ) + 70) * aggregate e de (x : ℚ)) =
          (∑ x ∈ controlUniverse, (x : ℚ) * aggregate e de (x : ℚ)) +
            70 * ∑ x ∈ controlUniverse, aggregate e de (x : ℚ) := hge'
      linarith
    · rw [div_le_iff₀ h]
      have : (∑ x ∈ controlUniverse, ((x : ℚ) + -70) * aggregate e de (x : ℚ)) =
          (∑ x ∈ controlUniverse, (x : ℚ) * aggregate e de (x : ℚ)) +
            -70 * ∑ x ∈ controlUniverse, aggregate e de (x : ℚ) := hle'
      have hle'' : (∑ x ∈ controlUniverse, ((x : ℚ) + -70) * aggregate e de (x : ℚ)) ≤ 0 := by
        calc (∑ x ∈ controlUniverse, ((x : ℚ) + -70) * aggregate e de (x : ℚ))
            = ∑ x ∈ controlUniverse, ((x : ℚ) - 70) * aggregate e de (x : ℚ) :=
            Finset.sum_congr rfl fun x _ => by ring
          _ ≤ 0 := hle
      linarith

/-- Claim C2: with the constructed integral gain `ki = 0.1`, the fuzzy
controller's output — centroid plus `ki` times the `[-300, 300]`-clamped
integral — lies in `[-100, 100]` for *every* controller state (reachable or
not) and every input; the PID controller's output is hard-clamped to the
same range. -/
theorem controller_output_bounded :
    (∀ c : FuzzyMotorController, c.ki = 1 / 10 → ∀ e de dt : ℚ,
      -100 ≤ (c.compute_control e de dt).2 ∧ (c.compute_control e de dt).2 ≤ 100) ∧
    (∀ (c : PIDMotorController) (m dt : ℚ),
      -100 ≤ (c.compute_control m dt).2 ∧ (c.compute_control m dt).2 ≤ 100) := by
  constructor
  · intro c hki e de dt
    have hcent := defuzzCentroid_abs_le (npClip e (-180) 180) (npClip de (-50) 50)
    have hint : |npClip (c.integral + e * dt) (-300) 300| ≤ 300 :=
      abs_npClip_le _ _ _ (by norm_num) (by norm_num)
    rw [abs_le] at hcent hint
    unfold FuzzyMotorController.compute_control
    rw [hki]
    constructor
    · show -100 ≤ defuzzCentroid (npClip e (-180) 180) (npClip de (-50) 50) +
        1 / 10 * npClip (c.integral + e * dt) (-300) 300
      linarith [hcent.1, hint.1]
    · show defuzzCentroid (npClip e (-180) 180) (npClip de (-50) 50) +
        1 / 10 * npClip (c.integral + e * dt) (-300) 300 ≤ 100
      linarith [hcent.2, hint.2]
  · intro c m dt
    exact ⟨le_npClip _ _ _ (by norm_num), npClip_le _ _ _⟩

/-- Witness for C2: the freshly constructed fuzzy controller at input
`(0, 0, 1)`, and a PID controller with the source's gains at input
`(5, 1)`. -/
theorem controller_output_bounded_witness :
    (-100 ≤ ((⟨0, 1 / 10⟩ : FuzzyMotorController).compute_control 0 0 1).2 ∧
      ((⟨0, 1 / 10⟩ : FuzzyMotorController).compute_control 0 0 1).2 ≤ 100) ∧
    (-100 ≤ ((PIDMotorController.init 2 (1 / 2) (1 / 10)).compute_control 5 1).2 ∧
      ((PIDMotorController.init 2 (1 / 2) (1 / 10)).compute_control 5 1).2 ≤ 100) :=
  ⟨controller_output_bounded.1 ⟨0, 1 / 10⟩ rfl 0 0 1,
    controller_output_bounded.2 (PIDMotorController.init 2 (1 / 2) (1 / 10)) 5 1⟩

/-! ## C10: velocity estimate division -/

/-- Claim C10: `get_velocity` divides by `dt` with no guard — at `dt = 0`
the call fails with a `ZeroDivisionError` instead of returning a value, and
for any `dt ≠ 0` it returns `(current − previous stored measurement)/dt`. -/
theorem velocity_estimate_division (e : RotaryEncoder) (c : ℚ) :
    e.get_velocity c 0 = .error "ZeroDivisionError" ∧
    ∀ dt : ℚ, dt ≠ 0 →
      e.get_velocity c dt = .ok ((c - e.previous_position_deg) / dt) := by
  constructor
  · simp [RotaryEncoder.get_velocity]
  · intro dt h
    simp [RotaryEncoder.get_velocity, h]

/-- Witness for C10 at a concrete encoder state and `dt = 2`. -/
theorem velocity_estimate_division_witness :
    (⟨1000, 0, 9 / 25, 0, 7⟩ : RotaryEncoder).get_velocity 3 2 =
      .ok ((3 - (⟨1000, 0, 9 / 25, 0, 7⟩ : RotaryEncoder).previous_position_deg) / 2) :=
  (velocity_estimate_division ⟨1000, 0, 9 / 25, 0, 7⟩ 3).2 2 (by norm_num)

/-! ## Driver loop lemmas (shared by C3, C4, C8, C9) -/

theorem driverStepRest_traceOk {C : Type} {t : ℚ} {o : ℕ → ℚ} {s : SimState C}
    {c : C} {e d cs : ℚ} (h : TraceOk s) : TraceOk (driverStepRest t o s c e d cs).1 := by
  obtain ⟨h1, h2, h3, h4, h5, h6, h7, h8, h9, -⟩ := h
  refine ⟨?_, ?_, ?_, ?_, ?_, ?_, ?_, ?_, ?_, ?_⟩ <;>
    simp [driverStepRest, List.length_append, h1, h2, h3, h4, h5, h6, h7, h8, h9]

theorem fuzzyLoopBody_step_eq (t : ℚ) (o : ℕ → ℚ) (s : SimState FuzzyMotorController) :
    (fuzzyLoopBody t o s).1.step = s.step + 1 := rfl

theorem fuzzyLoopBody_errors_eq (t : ℚ) (o : ℕ → ℚ) (s : SimState FuzzyMotorController) :
    (fuzzyLoopBody t o s).1.errors = s.errors ++ [t - s.measured_position] := rfl

theorem fuzzyLoopBody_prev_eq (t : ℚ) (o : ℕ → ℚ) (s : SimState FuzzyMotorController) :
    (fuzzyLoopBody t o s).1.previous_error = t - s.measured_position := rfl

theorem fuzzyLoopBody_traceOk (t : ℚ) (o : ℕ → ℚ) (s : SimState FuzzyMotorController)
    (h : TraceOk s) : TraceOk (fuzzyLoopBody t o s).1 :=
  driverStepRest_traceOk h

theorem pidLoopBody_step_eq (t : ℚ) (o : ℕ → ℚ) (s : SimState PIDMotorController) :
    (pidLoopBody t o s).1.step = s.step + 1 := rfl

theorem pidLoopBody_traceOk (t : ℚ) (o : ℕ → ℚ) (s : SimState PIDMotorController)
    (h : TraceOk s) : TraceOk (pidLoopBody t o s).1 :=
  driverStepRest_traceOk h

theorem fuzzyLoopBody_conv_iff (t : ℚ) (o : ℕ → ℚ) (s : SimState FuzzyMotorController) :
    (fuzzyLoopBody t o s).2 = true ↔
      |t - s.measured_position| < CONVERGENCE_THRESHOLD_POSITION ∧
      |fuzzyStepDelta t s.previous_error s.measured_position| <
        CONVERGENCE_THRESHOLD_DELTA := by
  simp [fuzzyLoopBody, driverStepRest]

theorem driverLoop_succ {C : Type} (body : SimState C → SimState C × Bool)
    (n : ℕ) (s : SimState C) :
    driverLoop body (n + 1) s =
      if (body s).2 then ((body s).1, TerminalState.converged)
      else driverLoop body n (body s).1 := rfl

theorem driverLoop_traceOk {C : Type} (body : SimState C → SimState C × Bool)
    (hstep : ∀ s, (body s).1.step = s.step + 1)
    (htrace : ∀ s, TraceOk s → TraceOk (body s).1) :
    ∀ (fuel : ℕ) (s : SimState C), TraceOk s →
      TraceOk (driverLoop body fuel s).1 ∧
      (driverLoop body fuel s).1.step ≤ s.step + fuel ∧
      ((driverLoop body fuel s).2 = .stepLimitReached →
        (driverLoop body fuel s).1.step = s.step + fuel) := by
  intro fuel
  induction fuel with
  | zero =>
    intro s h
    exact ⟨h, Nat.le_refl _, fun _ => rfl⟩
  | succ n ih =>
    intro s h
    rw [driverLoop_succ]
    by_cases hc : (body s).2 = true
    · rw [if_pos hc]
      refine ⟨htrace s h, ?_, ?_⟩
      · show (body s).1.step ≤ s.step + (n + 1)
        rw [hstep s]
        omega
      · intro hterm
        exact absurd hterm (by simp)
    · rw [if_neg hc]
      obtain ⟨ih1, ih2, ih3⟩ := ih (body s).1 (htrace s h)
      rw [hstep s] at ih2
      refine ⟨ih1, by omega, ?_⟩
      · intro hterm
        rw [ih3 hterm, hstep s]
        omega

theorem driverLoop_converged_trace (t : ℚ) (o : ℕ → ℚ) :
    ∀ (fuel : ℕ) (s : SimState FuzzyMotorController),
      s.errors.getLast? = some s.previous_error →
      (driverLoop (fuzzyLoopBody t o) fuel s).2 = .converged →
      ConvergedTrace (driverLoop (fuzzyLoopBody t o) fuel s).1 := by
  intro fuel
  induction fuel with
  | zero =>
    intro s _ hterm
    exact absurd hterm (by simp [driverLoop])
  | succ n ih =>
    intro s hinv hterm
    rw [driverLoop_succ] at hterm ⊢
    by_cases hc : (fuzzyLoopBody t o s).2 = true
    · rw [if_pos hc] at hterm ⊢
      obtain ⟨hpos, hdelta⟩ := (fuzzyLoopBody_conv_iff t o s).mp hc
      constructor
      · show |(fuzzyLoopBody t o s).1.lastError| < CONVERGENCE_THRESHOLD_POSITION
        rw [SimState.lastError, fuzzyLoopBody_errors_eq, List.getLast?_concat]
        exact hpos
      · show |npClip ((fuzzyLoopBody t o s).1.lastError -
            (fuzzyLoopBody t o s).1.lastPrevError) DELTA_ERROR_MIN DELTA_ERROR_MAX| <
          CONVERGENCE_THRESHOLD_DELTA
        rw [SimState.lastError, SimState.lastPrevError, fuzzyLoopBody_errors_eq,
          List.getLast?_concat, List.dropLast_concat, hinv]
        simpa [fuzzyStepDelta] using hdelta
    · rw [if_neg hc] at hterm ⊢
      refine ih (fuzzyLoopBody t o s).1 ?_ hterm
      rw [fuzzyLoopBody_errors_eq, fuzzyLoopBody_prev_eq, List.getLast?_concat]

theorem simInit_traceOk {C : Type} (p t : ℚ) (c : C) (σ : ℚ) (o : ℕ → ℚ) :
    TraceOk (simInit p t c σ o) :=
  ⟨rfl, rfl, rfl, rfl, rfl, rfl, rfl, rfl, rfl, rfl⟩

theorem fuzzyRun_def (p t : ℚ) (c : FuzzyMotorController) (σ : ℚ) (o : ℕ → ℚ) :
    fuzzyRun p t c σ o =
      ⟨(driverLoop (fuzzyLoopBody t o) MAX_SIMULATION_STEPS (simInit p t c σ o)).1,
        (driverLoop (fuzzyLoopBody t o) MAX_SIMULATION_STEPS (simInit p t c σ o)).2⟩ := rfl

theorem pidRun_def (p t : ℚ) (c : PIDMotorController) (σ : ℚ) (o : ℕ → ℚ) :
    pidRun p t c σ o =
      ⟨(driverLoop (pidLoopBody t o) MAX_SIMULATION_STEPS
          (simInit p t (c.set_target t) σ o)).1,
        (driverLoop (pidLoopBody t o) MAX_SIMULATION_STEPS
          (simInit p t (c.set_target t) σ o)).2⟩ := rfl

/-! ## C3: guaranteed termination -/

/-- Claim C3: for legal initial and target positions, a fuzzy run performs
at most `MAX_SIMULATION_STEPS = 300` outer steps, ends in exactly one of
the two terminal states — `converged` only when the final recorded error and
(clipped) delta-error are below the 0.5° thresholds, `stepLimitReached`
exactly when all 300 steps were used — and the trace keeps one record per
completed step plus the initial record in every column.  The embedded run is
a total function: no exception can escape it. -/
theorem run_terminates (p t : ℚ) (c : FuzzyMotorController) (oracle : ℕ → ℚ)
    (hp1 : POSITION_MIN ≤ p) (hp2 : p ≤ POSITION_MAX)
    (ht1 : POSITION_MIN ≤ t) (ht2 : t ≤ POSITION_MAX) :
    (fuzzyRun p t c ENCODER_NOISE_STD oracle).final.step ≤ MAX_SIMULATION_STEPS ∧
    ((fuzzyRun p t c ENCODER_NOISE_STD oracle).terminal = .converged ∨
      (fuzzyRun p t c ENCODER_NOISE_STD oracle).terminal = .stepLimitReached) ∧
    ((fuzzyRun p t c ENCODER_NOISE_STD oracle).terminal = .stepLimitReached →
      (fuzzyRun p t c ENCODER_NOISE_STD oracle).final.step = MAX_SIMULATION_STEPS) ∧
    ((fuzzyRun p t c ENCODER_NOISE_STD oracle).terminal = .converged →
      ConvergedTrace (fuzzyRun p t c ENCODER_NOISE_STD oracle).final) ∧
    TraceOk (fuzzyRun p t c ENCODER_NOISE_STD oracle).final := by
  have h0 := simInit_traceOk p t c ENCODER_NOISE_STD oracle
  have hmain := driverLoop_traceOk (fuzzyLoopBody t oracle)
    (fuzzyLoopBody_step_eq t oracle) (fuzzyLoopBody_traceOk t oracle)
    MAX_SIMULATION_STEPS (simInit p t c ENCODER_NOISE_STD oracle) h0
  have hconv := driverLoop_converged_trace t oracle MAX_SIMULATION_STEPS
    (simInit p t c ENCODER_NOISE_STD oracle) h0.2.2.2.2.2.2.2.2.2
  refine ⟨?_, ?_, ?_, ?_, ?_⟩
  · exact hmain.2.1
  · cases h : (fuzzyRun p t c ENCODER_NOISE_STD oracle).terminal
    · exact Or.inl rfl
    · exact Or.inr rfl
  · intro hterm
    exact hmain.2.2 hterm
  · intro hterm
    exact hconv hterm
  · exact hmain.1

/-- Witness for C3: the run from 0° to 0° with all noise draws zero. -/
theorem run_terminates_witness :
    (fuzzyRun 0 0 FuzzyMotorController.init ENCODER_NOISE_STD
        (fun _ => 0)).final.step ≤ MAX_SIMULATION_STEPS ∧
    ((fuzzyRun 0 0 FuzzyMotorController.init ENCODER_NOISE_STD
        (fun _ => 0)).terminal = .converged ∨
      (fuzzyRun 0 0 FuzzyMotorController.init ENCODER_NOISE_STD
        (fun _ => 0)).terminal = .stepLimitReached) ∧
    ((fuzzyRun 0 0 FuzzyMotorController.init ENCODER_NOISE_STD
        (fun _ => 0)).terminal = .stepLimitReached →
      (fuzzyRun 0 0 FuzzyMotorController.init ENCODER_NOISE_STD
        (fun _ => 0)).final.step = MAX_SIMULATION_STEPS) ∧
    ((fuzzyRun 0 0 FuzzyMotorController.init ENCODER_NOISE_STD
        (fun _ => 0)).terminal = .converged →
      ConvergedTrace (fuzzyRun 0 0 FuzzyMotorController.init ENCODER_NOISE_STD
        (fun _ => 0)).final) ∧
    TraceOk (fuzzyRun 0 0 FuzzyMotorController.init ENCODER_NOISE_STD
        (fun _ => 0)).final :=
  run_terminates 0 0 FuzzyMotorController.init (fun _ => 0)
    (by norm_num [POSITION_MIN]) (by norm_num [POSITION_MAX])
    (by norm_num [POSITION_MIN]) (by norm_num [POSITION_MAX])

/-! ## C4: run entry point result contract -/

set_option maxRecDepth 1000000 in
/-- Counterexample to claim C4: the source's return value does not make
every trace field readable.  In the concrete run from 0° towards 0.4° the
internally accumulated voltage, current and velocity columns are not equal
to any of the six columns of the returned value (and the return type
`SimReturn` carries no terminal-state component at all). -/
theorem simulate_return_missing_columns :
    (fuzzyRun 0 (2 / 5) FuzzyMotorController.init ENCODER_NOISE_STD
        (fun _ => 0)).final.voltages ∉
      (simulate_motor_control_fuzzy 0 (2 / 5) FuzzyMotorController.init
        (fun _ => 0)).columns ∧
    (fuzzyRun 0 (2 / 5) FuzzyMotorController.init ENCODER_NOISE_STD
        (fun _ => 0)).final.currents ∉
      (simulate_motor_control_fuzzy 0 (2 / 5) FuzzyMotorController.init
        (fun _ => 0)).columns ∧
    (fuzzyRun 0 (2 / 5) FuzzyMotorController.init ENCODER_NOISE_STD
        (fun _ => 0)).final.velocities ∉
      (simulate_motor_control_fuzzy 0 (2 / 5) FuzzyMotorController.init
        (fun _ => 0)).columns := by
  refine ⟨?_, ?_, ?_⟩ <;> with_unfolding_all decide

/-- Claim C4 as amended: each simulate function returns exactly the six
trace columns time, true position, measured position, target, error and
control signal, plus the step count — each individually readable, with one
record per completed step plus the initial record.  Voltage, current,
velocity and the terminal state are computed but not part of the return
value. -/
theorem simulate_return_contract :
    (∀ (p t : ℚ) (c : FuzzyMotorController) (o : ℕ → ℚ),
      simulate_motor_control_fuzzy p t c o =
        ⟨(fuzzyRun p t c ENCODER_NOISE_STD o).final.time_steps,
          (fuzzyRun p t c ENCODER_NOISE_STD o).final.actual_positions,
          (fuzzyRun p t c ENCODER_NOISE_STD o).final.measured_positions,
          (fuzzyRun p t c ENCODER_NOISE_STD o).final.targets,
          (fuzzyRun p t c ENCODER_NOISE_STD o).final.errors,
          (fuzzyRun p t c ENCODER_NOISE_STD o).final.control_signals,
          (fuzzyRun p t c ENCODER_NOISE_STD o).final.step⟩) ∧
    (∀ (p t : ℚ) (c : PIDMotorController) (o : ℕ → ℚ),
      simulate_motor_control_pid p t c o =
        ⟨(pidRun p t c ENCODER_NOISE_STD o).final.time_steps,
          (pidRun p t c ENCODER_NOISE_STD o).final.actual_positions,
          (pidRun p t c ENCODER_NOISE_STD o).final.measured_positions,
          (pidRun p t c ENCODER_NOISE_STD o).final.targets,
          (pidRun p t c ENCODER_NOISE_STD o).final.errors,
          (pidRun p t c ENCODER_NOISE_STD o).final.control_signals,
          (pidRun p t c ENCODER_NOISE_STD o).final.step⟩) ∧
    (∀ (p t : ℚ) (c : FuzzyMotorController) (o : ℕ → ℚ),
      (simulate_motor_control_fuzzy p t c o).time_steps.length =
          (simulate_motor_control_fuzzy p t c o).step + 1 ∧
        (simulate_motor_control_fuzzy p t c o).actual_positions.length =
          (simulate_motor_control_fuzzy p t c o).step + 1 ∧
        (simulate_motor_control_fuzzy p t c o).measured_positions.length =
          (simulate_motor_control_fuzzy p t c o).step + 1 ∧
        (simulate_motor_control_fuzzy p t c o).targets.length =
          (simulate_motor_control_fuzzy p t c o).step + 1 ∧
        (simulate_motor_control_fuzzy p t c o).errors.length =
          (simulate_motor_control_fuzzy p t c o).step + 1 ∧
        (simulate_motor_control_fuzzy p t c o).control_signals.length =
          (simulate_motor_control_fuzzy p t c o).step + 1) ∧
    (∀ (p t : ℚ) (c : PIDMotorController) (o : ℕ → ℚ),
      (simulate_motor_control_pid p t c o).time_steps.length =
          (simulate_motor_control_pid p t c o).step + 1 ∧
        (simulate_motor_control_pid p t c o).errors.length =
          (simulate_motor_control_pid p t c o).step + 1) := by
  refine ⟨fun p t c o => rfl, fun p t c o => rfl, ?_, ?_⟩
  · intro p t c o
    have h := (driverLoop_traceOk (fuzzyLoopBody t o) (fuzzyLoopBody_step_eq t o)
      (fuzzyLoopBody_traceOk t o) MAX_SIMULATION_STEPS
      (simInit p t c ENCODER_NOISE_STD o)
      (simInit_traceOk p t c ENCODER_NOISE_STD o)).1
    exact ⟨h.1, h.2.1, h.2.2.1, h.2.2.2.1, h.2.2.2.2.1, h.2.2.2.2.2.1⟩
  · intro p t c o
    have h := (driverLoop_traceOk (pidLoopBody t o) (pidLoopBody_step_eq t o)
      (pidLoopBody_traceOk t o) MAX_SIMULATION_STEPS
      (simInit p t (c.set_target t) ENCODER_NOISE_STD o)
      (simInit_traceOk p t (c.set_target t) ENCODER_NOISE_STD o)).1
    exact ⟨h.1, h.2.2.2.2.1⟩

/-! ## C8: determinism at zero noise -/

theorem read_position_oracle_irrel (e : RotaryEncoder) (h : e.noise_std = 0)
    (a n n' : ℚ) : e.read_position a n = e.read_position a n' := by
  simp [RotaryEncoder.read_position, h]

theorem fuzzyLoopBody_noise_eq (t : ℚ) (o : ℕ → ℚ) (s : SimState FuzzyMotorController) :
    (fuzzyLoopBody t o s).1.encoder.noise_std = s.encoder.noise_std := rfl

theorem pidLoopBody_noise_eq (t : ℚ) (o : ℕ → ℚ) (s : SimState PIDMotorController) :
    (pidLoopBody t o s).1.encoder.noise_std = s.encoder.noise_std := rfl

theorem fuzzyLoopBody_oracle_irrel (t : ℚ) (o1 o2 : ℕ → ℚ)
    (s : SimState FuzzyMotorController) (h : s.encoder.noise_std = 0) :
    fuzzyLoopBody t o1 s = fuzzyLoopBody t o2 s := by
  simp [fuzzyLoopBody, driverStepRest, RotaryEncoder.read_position, h]

theorem pidLoopBody_oracle_irrel (t : ℚ) (o1 o2 : ℕ → ℚ)
    (s : SimState PIDMotorController) (h : s.encoder.noise_std = 0) :
    pidLoopBody t o1 s = pidLoopBody t o2 s := by
  simp [pidLoopBody, driverStepRest, RotaryEncoder.read_position, h]

theorem driverLoop_congr {C : Type} (b1 b2 : SimState C → SimState C × Bool)
    (P : SimState C → Prop) (hb : ∀ s, P s → b1 s = b2 s)
    (hp : ∀ s, P s → P (b1 s).1) :
    ∀ (fuel : ℕ) (s : SimState C), P s →
      driverLoop b1 fuel s = driverLoop b2 fuel s := by
  intro fuel
  induction fuel with
  | zero =>
    intro s _
    rfl
  | succ n ih =>
    intro s hs
    rw [driverLoop_succ, driverLoop_succ, ← hb s hs]
    by_cases hc : (b1 s).2 = true
    · rw [if_pos hc, if_pos hc]
    · rw [if_neg hc, if_neg hc]
      exact ih (b1 s).1 (hp s hs)

theorem simInit_oracle_irrel {C : Type} (p t : ℚ) (c : C) (o1 o2 : ℕ → ℚ) :
    simInit p t c 0 o1 = simInit p t c 0 o2 := by
  simp [simInit, RotaryEncoder.read_position]

/-- Claim C8: with the sensor noise standard deviation at 0, the run is a
function of the initial position, the target and the controller alone — two
runs with different noise oracles produce identical results, every trace
record and field included, for both controller strategies. -/
theorem run_deterministic :
    (∀ (p t : ℚ) (c : FuzzyMotorController) (o1 o2 : ℕ → ℚ),
      fuzzyRun p t c 0 o1 = fuzzyRun p t c 0 o2) ∧
    (∀ (p t : ℚ) (c : PIDMotorController) (o1 o2 : ℕ → ℚ),
      pidRun p t c 0 o1 = pidRun p t c 0 o2) := by
  constructor
  · intro p t c o1 o2
    rw [fuzzyRun_def, fuzzyRun_def, simInit_oracle_irrel p t c o1 o2,
      driverLoop_congr (fuzzyLoopBody t o1) (fuzzyLoopBody t o2)
        (fun s => s.encoder.noise_std = 0)
        (fun s hs => fuzzyLoopBody_oracle_irrel t o1 o2 s hs)
        (fun s hs => by
          show (fuzzyLoopBody t o1 s).1.encoder.noise_std = 0
          rw [fuzzyLoopBody_noise_eq]
          exact hs)
        MAX_SIMULATION_STEPS _ rfl]
  · intro p t c o1 o2
    rw [pidRun_def, pidRun_def, simInit_oracle_irrel p t (c.set_target t) o1 o2,
      driverLoop_congr (pidLoopBody t o1) (pidLoopBody t o2)
        (fun s => s.encoder.noise_std = 0)
        (fun s hs => pidLoopBody_oracle_irrel t o1 o2 s hs)
        (fun s hs => by
          show (pidLoopBody t o1 s).1.encoder.noise_std = 0
          rw [pidLoopBody_noise_eq]
          exact hs)
        MAX_SIMULATION_STEPS _ rfl]

/-! ## C9: zero-error scenario -/

theorem fuzzyLoopBody_errors_head (t : ℚ) (o : ℕ → ℚ)
    (s : SimState FuzzyMotorController) (v : ℚ) (h : s.errors.head? = some v) :
    (fuzzyLoopBody t o s).1.errors.head? = some v := by
  rw [fuzzyLoopBody_errors_eq]
  cases herr : s.errors with
  | nil =>
    rw [herr] at h
    simp at h
  | cons a l =>
    rw [herr] at h
    simpa using h

theorem driverLoop_errors_head {C : Type} (body : SimState C → SimState C × Bool)
    (hbody : ∀ s v, s.errors.head? = some v → (body s).1.errors.head? = some v) :
    ∀ (fuel : ℕ) (s : SimState C) (v : ℚ), s.errors.head? = some v →
      (driverLoop body fuel s).1.errors.head? = some v := by
  intro fuel
  induction fuel with
  | zero =>
    intro s v h
    exact h
  | succ n ih =>
    intro s v h
    rw [driverLoop_succ]
    by_cases hc : (body s).2 = true
    · rw [if_pos hc]
      exact hbody s v h
    · rw [if_neg hc]
      exact ih (body s).1 v (hbody s v h)

/-- The first trace record's error survives the whole run: the loop only
ever appends records. -/
theorem fuzzyRun_errors_head (p t : ℚ) (c : FuzzyMotorController) (σ : ℚ)
    (o : ℕ → ℚ) (v : ℚ) (h : (simInit p t c σ o).errors.head? = some v) :
    (fuzzyRun p t c σ o).final.errors.head? = some v :=
  driverLoop_errors_head (fuzzyLoopBody t o) (fuzzyLoopBody_errors_head t o)
    MAX_SIMULATION_STEPS (simInit p t c σ o) v h

/-- Counterexample to claim C9: with the default parameters the sensor noise
standard deviation is 0.1, so a read adds a Gaussian draw.  If the first
draw is 1 (a legal sample), the position 0° is measured as 1° and the error
recorded at step 0 is −1, not 0. -/
theorem zero_target_default_noise_error :
    (fuzzyRun 0 0 FuzzyMotorController.init ENCODER_NOISE_STD
        (fun _ => 1)).final.errors.head? = some (-1) ∧ ((-1 : ℚ) ≠ 0) :=
  ⟨fuzzyRun_errors_head 0 0 FuzzyMotorController.init ENCODER_NOISE_STD
      (fun _ => 1) (-1) (by with_unfolding_all rfl),
    by norm_num⟩

set_option maxRecDepth 1000000 in
/-- Claim C9 as amended: in the run from 0° to 0° with default parameters
and every Gaussian noise draw equal to zero, the recorded error is 0 at
step 0 and at step 1 (so error and delta-error are both zero), and the run
ends in the `converged` terminal state at step 1. -/
theorem zero_target_zero_noise_converges :
    (fuzzyRun 0 0 FuzzyMotorController.init ENCODER_NOISE_STD
        (fun _ => 0)).final.errors = [0, 0] ∧
    (fuzzyRun 0 0 FuzzyMotorController.init ENCODER_NOISE_STD
        (fun _ => 0)).final.step = 1 ∧
    (fuzzyRun 0 0 FuzzyMotorController.init ENCODER_NOISE_STD
        (fun _ => 0)).terminal = .converged := by
  refine ⟨?_, ?_, ?_⟩ <;> with_unfolding_all rfl

end MotorSim
